import Mathlib

/-!
Verification development for the SafeSnap frontend (TypeScript).

The relevant program parts are shallowly embedded:
* `src/api/storage.ts` — file-name/MIME helpers and the `storageApi` calls;
* `src/api/client.ts` — the axios response interceptor (401 handling);
* `src/contexts/AuthContext.tsx` — session restore/login/logout over
  `localStorage`;
* `CreateIncidentPage` — the upload batch handler and local removal of
  uploaded URLs.

JS strings that the claims inspect character by character (file names) are
modelled as `List Char`; other strings stay `String`. Absent JS values
(`undefined`/`null`, missing object fields, missing storage keys) are
modelled with `Option`; JS truthiness of strings/numbers is modelled
explicitly. Fallible backend calls are modelled as `Except` inputs.
-/

namespace SafeSnap

/-! ### storage.ts: helpers -/

/-- JS truthiness of a possibly-absent string value: `undefined`/`null`
(`none`) and the empty string are falsy. -/
def strTruthy : Option String → Bool
  | none => false
  | some s => s ≠ ""

/-- JS truthiness of a possibly-absent number field (integral case):
`undefined` (`none`) and `0` are falsy. -/
def intTruthy : Option Int → Bool
  | none => false
  | some n => n ≠ 0

/-- JS `a || b` on possibly-absent string values: yields `a` when `a` is
truthy, otherwise `b` unchanged. -/
def jsOr (a b : Option String) : Option String :=
  if strTruthy a then a else b

/-- Embeds JS `String.prototype.split` with a one-character separator
(`fileName.split('.')` in storage.ts). Never returns `[]`; splitting the
empty string gives `[[]]`, matching JS `"".split('.') = [""]`. -/
def splitOnChar (c : Char) : List Char → List (List Char)
  | [] => [[]]
  | x :: xs =>
    if x = c then
      [] :: splitOnChar c xs
    else
      match splitOnChar c xs with
      | [] => [[x]]
      | h :: t => (x :: h) :: t

/-- Embeds `getFileExtension` (storage.ts):
`fileName.split('.').pop()?.toLowerCase() || ''`.
`pop` of the split result is its last chunk (`getLast?`); `?.`/`|| ''`
turn an absent result into the empty string; `toLowerCase` is mapped
over the characters. -/
def getFileExtension (fileName : List Char) : List Char :=
  (((splitOnChar '.' fileName).getLast?).getD []).map Char.toLower

/-- Embeds JS `String.prototype.startsWith`: the second list is a
character-wise prefix of the first. -/
def startsWithL : List Char → List Char → Bool
  | _, [] => true
  | [], _ :: _ => false
  | x :: xs, y :: ys => x = y && startsWithL xs ys

/-- Embeds `getFileType` (storage.ts):
`mimeType.startsWith('image/') ? 'IMAGE' : 'AUDIO'`. -/
def getFileType (mimeType : List Char) : String :=
  if startsWithL mimeType "image/".toList then "IMAGE" else "AUDIO"

/-! ### storage.ts: getUploadUrl -/

/-- The request body `storageApi.getUploadUrl` sends to
`POST /s3/upload-url` (non-mock branch, `USE_MOCK_S3 = false`). -/
structure UploadUrlRequest where
  fileType : String
  fileExt : List Char
deriving DecidableEq

/-- Embeds the request construction inside `storageApi.getUploadUrl`:
`{fileType: getFileType(fileType), fileExtension: getFileExtension(fileName)}`. -/
def uploadUrlRequestBody (fileName : List Char) (mimeType : List Char) : UploadUrlRequest :=
  { fileType := getFileType mimeType
    fileExt := getFileExtension fileName }

/-- The `/s3/upload-url` response body as `getUploadUrl` reads it: every
URL field may be absent, and a present field may still be the empty
string; `expiresInMinutes` is a number. -/
structure UploadUrlResponseData where
  uploadUrl : Option String
  s3Url : Option String
  fileUrl : Option String
  downloadUrl : Option String
  expiresInMinutes : Int
deriving DecidableEq

/-- The value `storageApi.getUploadUrl` resolves with. -/
structure PresignedUploadResult where
  uploadUrl : Option String
  fileUrl : Option String
  expiresInSeconds : Int
deriving DecidableEq

/-- Embeds the response transformation of `storageApi.getUploadUrl`:
`fileUrl := data.s3Url || data.fileUrl || data.downloadUrl` (left
associated, as in JS) and
`expiresInSeconds := data.expiresInMinutes * 60`. -/
def getUploadUrlResult (d : UploadUrlResponseData) : PresignedUploadResult :=
  { uploadUrl := d.uploadUrl
    fileUrl := jsOr (jsOr d.s3Url d.fileUrl) d.downloadUrl
    expiresInSeconds := d.expiresInMinutes * 60 }

/-- Embeds `storageApi.fileExists` (non-mock branch): the backend call
either throws (transport or server error, the `Except.error` case) or
returns a body whose `exists` field is a boolean; the surrounding
`try`/`catch` maps any thrown error to `false`. -/
def fileExists (call : Except String Bool) : Bool :=
  match call with
  | Except.error _ => false
  | Except.ok b => b

/-- Refinement target for C6, following the spec's words: the first
present-and-non-empty field of a priority-ordered list of fields. -/
def firstPresentNonEmpty : List (Option String) → Option String
  | [] => none
  | a :: rest => if strTruthy a then a else firstPresentNonEmpty rest

/-- Refinement target for C4, following the spec's words: the characters
after the final `'.'` of the name (the whole name when it has no dot). -/
def specAfterFinalDot (l : List Char) : List Char :=
  (l.reverse.takeWhile (fun x => x != '.')).reverse

/-! ### AuthContext.tsx and client.ts: session model

`localStorage` holds the keys `safesnap_token` and `safesnap_user`; each
is either absent or a string. The token entry is kept as `Option String`.
The user entry is a string that restore feeds to `JSON.parse`; it is
modelled by what that parse does to it (`UserBlob`). -/

/-- A JS object parsed from the `safesnap_user` entry: each of the fields
the code touches is either absent (`none`, i.e. `undefined`) or present. -/
structure JsUserObj where
  id : Option Int
  name : Option String
  email : Option String
  role : Option String
deriving DecidableEq

/-- The stored `safesnap_user` string, classified by what `JSON.parse`
does to it: the empty string (falsy, so the restore guard skips it), a
string on which `JSON.parse` throws, a string parsing to a value that is
not a truthy object (e.g. `null`, a number), or one parsing to an object
with the given fields. -/
inductive UserBlob
  | emptyStr
  | malformed
  | nonObject
  | obj (o : JsUserObj)
deriving DecidableEq

/-- Embeds `JSON.stringify(userData)` as written by `login`: a stringified
object always parses back to an object with the same fields. -/
def stringifyUser (u : JsUserObj) : UserBlob := UserBlob.obj u

/-- The two persisted entries. -/
structure Storage where
  token : Option String
  userBlob : Option UserBlob
deriving DecidableEq

/-- Storage after `localStorage.removeItem` of both session keys. -/
def clearedStorage : Storage := { token := none, userBlob := none }

/-- Embeds the mount-time restore effect of `AuthProvider`
(AuthContext.tsx:26-50). Returns the in-memory user after the effect and
the storage it leaves behind. The outer guard is JS
`if (storedToken && storedUser)` (absent or empty strings are falsy);
inside it, a parse failure or a parsed value without truthy
`id`/`email`/`role` removes both entries and leaves the user `null`. -/
def restore (st : Storage) : Option JsUserObj × Storage :=
  match st.token, st.userBlob with
  | some t, some b =>
    if t ≠ "" ∧ b ≠ UserBlob.emptyStr then
      match b with
      | UserBlob.obj o =>
        if intTruthy o.id ∧ strTruthy o.email ∧ strTruthy o.role then
          (some o, st)
        else
          (none, clearedStorage)
      | _ => (none, clearedStorage)
    else (none, st)
  | _, _ => (none, st)

/-- The session-relevant application state: persisted storage plus the
in-memory `user` of `AuthProvider`. -/
structure AppState where
  storage : Storage
  user : Option JsUserObj
deriving DecidableEq

/-- Embeds `login` (AuthContext.tsx:52-56): persists the token and the
stringified user object and sets the in-memory user. -/
def login (token : String) (userData : JsUserObj) (_s : AppState) : AppState :=
  { storage := { token := some token, userBlob := some (stringifyUser userData) }
    user := some userData }

/-- Embeds `logout` (AuthContext.tsx:58-62). -/
def logout (_s : AppState) : AppState :=
  { storage := clearedStorage, user := none }

/-- A fresh process start over a given storage: `AuthProvider` mounts with
`user = null` and runs the restore effect. -/
def freshMount (st : Storage) : AppState :=
  { storage := (restore st).2, user := (restore st).1 }

/-- Embeds the response-error interceptor of `ApiClient.setupInterceptors`
(client.ts): a response with status 401 removes both persisted entries and
sets `window.location.href = '/login'`, a full page load that re-mounts
`AuthProvider` over the cleared storage; every other status rethrows and
leaves the session alone. -/
def responseErrorInterceptor (status : Nat) (s : AppState) : AppState :=
  if status = 401 then freshMount clearedStorage else s

/-! ### CreateIncidentPage: upload batch and removal -/

/-- The two media categories of the incident form. -/
inductive MediaKind
  | image
  | audio
deriving DecidableEq

/-- One file of a batch as `handleFileUpload` consumes it: the `fileUrl`
its upload grant resolves to, and whether its direct S3 transfer
(`storageApi.uploadFile`) succeeds. -/
structure UploadTask where
  fileUrl : String
  transferOk : Bool
deriving DecidableEq

/-- The local state of `CreateIncidentPage` the claims touch. -/
structure FormState where
  uploadedImages : List String
  uploadedAudio : List String
  isUploading : Bool
  rootError : Option String
deriving DecidableEq

/-- The sequential `for` loop of `handleFileUpload`: tasks are processed
in submission order, each success is appended to the accumulated list,
and the first failure throws into the surrounding `try`, aborting the
loop. Returns the accumulated list and whether the loop aborted. -/
def runUploadLoop : List UploadTask → List String → List String × Bool
  | [], acc => (acc, false)
  | t :: ts, acc =>
    if t.transferOk then runUploadLoop ts (acc ++ [t.fileUrl])
    else (acc, true)

/-- Embeds `handleFileUpload` (CreateIncidentPage): early-returns on an
empty file list; otherwise sets the uploading flag, runs the sequential
loop appending to the list of the chosen kind, sets the generic form
error if the loop aborted, and the `finally` clears the flag. -/
def handleFileUpload (tasks : List UploadTask) (kind : MediaKind) (s : FormState) : FormState :=
  if tasks = [] then s
  else
    match kind with
    | MediaKind.image =>
      let r := runUploadLoop tasks s.uploadedImages
      { s with
        uploadedImages := r.1
        isUploading := false
        rootError := if r.2 then some "Failed to upload files. Please try again." else s.rootError }
    | MediaKind.audio =>
      let r := runUploadLoop tasks s.uploadedAudio
      { s with
        uploadedAudio := r.1
        isUploading := false
        rootError := if r.2 then some "Failed to upload files. Please try again." else s.rootError }

/-- Embeds `removeFile` (CreateIncidentPage): filters the chosen list by
`u !== url`, touching no other state and performing no request. -/
def removeFile (url : String) (kind : MediaKind) (s : FormState) : FormState :=
  match kind with
  | MediaKind.image =>
    { s with uploadedImages := s.uploadedImages.filter (fun u => u ≠ url) }
  | MediaKind.audio =>
    { s with uploadedAudio := s.uploadedAudio.filter (fun u => u ≠ url) }

/-! ### Theorems -/

/-- C9: for every MIME-type string (and any file name), the coarse
file-type bucket sent with the upload-grant request is `"IMAGE"` exactly
when the MIME type starts with `"image/"`, and `"AUDIO"` for every other
string. -/
theorem fileType_bucket_spec (mimeType : List Char) (fileName : List Char) :
    ((uploadUrlRequestBody fileName mimeType).fileType = "IMAGE" ↔
      startsWithL mimeType "image/".toList = true)
    ∧ ((uploadUrlRequestBody fileName mimeType).fileType = "AUDIO" ↔
      startsWithL mimeType "image/".toList = false) := by
  unfold uploadUrlRequestBody getFileType
  cases hc : startsWithL mimeType "image/".toList <;> simp [hc]

/-- Closed instance of `fileType_bucket_spec` at a concrete MIME type. -/
theorem fileType_bucket_spec_witness :
    (uploadUrlRequestBody "photo.JPG".toList "image/jpeg".toList).fileType = "IMAGE" :=
  (fileType_bucket_spec "image/jpeg".toList "photo.JPG".toList).1.mpr (by decide)

/-- C10: for every upload-grant response with a numeric
`expiresInMinutes` field, `getUploadUrl` returns an `expiresInSeconds`
equal to exactly 60 times that value. -/
theorem expiresInSeconds_is_sixty_times_minutes (d : UploadUrlResponseData) :
    (getUploadUrlResult d).expiresInSeconds = d.expiresInMinutes * 60 := rfl

/-- C7: `fileExists` resolves to `false` (and never throws — it is a
total function into `Bool`) when the backend call raises an error, and
returns the backend's `exists` boolean otherwise. -/
theorem fileExists_fail_safe (e : String) (b : Bool) :
    fileExists (Except.error e) = false ∧ fileExists (Except.ok b) = b :=
  ⟨rfl, rfl⟩

/-- C3: for every application state, a response with status 401 leaves
both persisted entries removed and the in-memory session cleared,
independently of which call produced the response. -/
theorem interceptor401_clears_session (s : AppState) :
    (responseErrorInterceptor 401 s).storage.token = none
    ∧ (responseErrorInterceptor 401 s).storage.userBlob = none
    ∧ (responseErrorInterceptor 401 s).user = none := by
  refine ⟨?_, ?_, ?_⟩ <;> rfl

/-- C6: whenever some field among `s3Url`, `fileUrl`, `downloadUrl` of
the upload-grant response is present and non-empty, `getUploadUrl`
resolves the public file URL to the first such field in that priority
order. -/
theorem getUploadUrl_fileUrl_priority (d : UploadUrlResponseData) (u : String)
    (h : firstPresentNonEmpty [d.s3Url, d.fileUrl, d.downloadUrl] = some u) :
    (getUploadUrlResult d).fileUrl = some u := by
  by_cases h1 : strTruthy d.s3Url = true
  · simp [getUploadUrlResult, jsOr, firstPresentNonEmpty, h1] at *
    exact h
  · by_cases h2 : strTruthy d.fileUrl = true
    · simp [getUploadUrlResult, jsOr, firstPresentNonEmpty, h1, h2] at *
      exact h
    · simp [getUploadUrlResult, jsOr, firstPresentNonEmpty, h1, h2] at *
      exact h.2

/-- Closed instance of `getUploadUrl_fileUrl_priority`: with `s3Url`
absent, the present-and-non-empty `fileUrl` wins over `downloadUrl`. -/
theorem getUploadUrl_fileUrl_priority_witness :
    (getUploadUrlResult ⟨some "U", none, some "F", some "D", 60⟩).fileUrl = some "F" :=
  getUploadUrl_fileUrl_priority ⟨some "U", none, some "F", some "D", 60⟩ "F" (by decide)

/-- C8: removing a URL from the uploaded-images list removes every
occurrence of exactly that URL, keeps the count of every other URL, and
preserves the relative order of the remaining elements (the result is a
sublist); no other piece of the form state changes, and the operation is
a pure state transformation (no request is modelled because none is
made). -/
theorem removeFile_removes_exactly (s : FormState) (url : String) :
    ((removeFile url MediaKind.image s).uploadedImages).Sublist s.uploadedImages
    ∧ ((removeFile url MediaKind.image s).uploadedImages).count url = 0
    ∧ (∀ v, v ≠ url →
        ((removeFile url MediaKind.image s).uploadedImages).count v
          = s.uploadedImages.count v)
    ∧ (removeFile url MediaKind.image s).uploadedAudio = s.uploadedAudio
    ∧ (removeFile url MediaKind.image s).isUploading = s.isUploading
    ∧ (removeFile url MediaKind.image s).rootError = s.rootError := by
  refine ⟨?_, ?_, ?_, rfl, rfl, rfl⟩
  · exact List.filter_sublist _
  · rw [List.count_eq_zero]
    intro hmem
    have := List.of_mem_filter hmem
    simp at this
  · intro v hv
    simp [removeFile, List.count_filter, hv]

/-- Closed instance of `removeFile_removes_exactly` on a concrete list
with a duplicated URL. -/
theorem removeFile_removes_exactly_witness :
    ((removeFile "a" MediaKind.image ⟨["b", "a", "c", "a"], ["x"], false, none⟩).uploadedImages).count "a" = 0
    ∧ ((removeFile "a" MediaKind.image ⟨["b", "a", "c", "a"], ["x"], false, none⟩).uploadedImages).count "c"
        = (["b", "a", "c", "a"] : List String).count "c" := by
  have h := removeFile_removes_exactly ⟨["b", "a", "c", "a"], ["x"], false, none⟩ "a"
  exact ⟨h.2.1, h.2.2.1 "c" (by decide)⟩

/-- The restore-time rejection cases for a present, non-empty user blob:
parse failure, a non-object value, or an object without a truthy `id`,
`email` or `role`. Used to state C1. -/
def blobRejected : UserBlob → Bool
  | UserBlob.emptyStr => true
  | UserBlob.malformed => true
  | UserBlob.nonObject => true
  | UserBlob.obj o => !(intTruthy o.id && strTruthy o.email && strTruthy o.role)

/-- C1 (counterexample): with the token entry missing but a fully valid
user blob present, `restore` leaves the session not authenticated but
does NOT remove the user entry, contradicting the claim that both
persisted entries are removed in every such case. -/
theorem restore_missing_token_keeps_blob :
    (restore ⟨none, some (UserBlob.obj ⟨some 1, some "n", some "e@x", some "WORKER"⟩)⟩).1 = none
    ∧ (restore ⟨none, some (UserBlob.obj ⟨some 1, some "n", some "e@x", some "WORKER"⟩)⟩).2.userBlob
        = some (UserBlob.obj ⟨some 1, some "n", some "e@x", some "WORKER"⟩) :=
  ⟨rfl, rfl⟩

/-- C1 (amended): in every failure case the in-memory user stays `null`;
both persisted entries are removed when both entries are present and
non-empty but the blob fails to parse, is not an object, or lacks a
truthy `id`, `email` or `role`; when either entry is absent or the empty
string, storage is left unchanged (no purge happens). -/
theorem restore_fails_closed (st : Storage) :
    ((st.token = none ∨ st.userBlob = none ∨ st.token = some ""
        ∨ st.userBlob = some UserBlob.emptyStr) →
      restore st = (none, st))
    ∧ (∀ t b, st.token = some t → t ≠ "" → st.userBlob = some b →
        b ≠ UserBlob.emptyStr → blobRejected b = true →
        restore st = (none, clearedStorage)) := by
  obtain ⟨tok, ub⟩ := st
  constructor
  · rintro (h | h | h | h)
    · subst h; cases ub <;> rfl
    · subst h; cases tok <;> rfl
    · subst h
      cases ub with
      | none => rfl
      | some b =>
        simp only [restore]
        rw [if_neg]
        rintro ⟨hc, -⟩
        exact hc rfl
    · subst h
      cases tok with
      | none => rfl
      | some t =>
        simp only [restore]
        rw [if_neg]
        rintro ⟨-, hc⟩
        exact hc rfl
  · rintro t b rfl ht rfl hb hrej
    simp only [restore]
    rw [if_pos ⟨ht, hb⟩]
    cases b with
    | emptyStr => exact absurd rfl hb
    | malformed => rfl
    | nonObject => rfl
    | obj o =>
      have hc : ¬(intTruthy o.id = true ∧ strTruthy o.email = true ∧ strTruthy o.role = true) := by
        rintro ⟨h1, h2, h3⟩
        simp [blobRejected, h1, h2, h3] at hrej
      exact if_neg hc

/-- Closed instance of `restore_fails_closed`: a missing token leaves
storage untouched, while a present token with a malformed blob purges
both entries. -/
theorem restore_fails_closed_witness :
    restore ⟨none, some UserBlob.malformed⟩ = (none, ⟨none, some UserBlob.malformed⟩)
    ∧ restore ⟨some "t", some UserBlob.malformed⟩ = (none, clearedStorage) := by
  refine ⟨(restore_fails_closed ⟨none, some UserBlob.malformed⟩).1 (Or.inl rfl), ?_⟩
  exact (restore_fails_closed ⟨some "t", some UserBlob.malformed⟩).2 "t" UserBlob.malformed
    rfl (by decide) rfl (by decide) (by decide)

/-- C5 (counterexample): the identity object `{id: 0, name, email, role}`
contains `id`, `email` and `role`, yet `login` followed by a fresh
process restore yields no authenticated user, because the restore-time
validation uses JS truthiness and `0` is falsy. -/
theorem login_restore_fails_on_zero_id :
    (freshMount (login "t" ⟨some 0, some "n", some "e@x", some "WORKER"⟩
        ⟨clearedStorage, none⟩).storage).user
      ≠ some ⟨some 0, some "n", some "e@x", some "WORKER"⟩ := by decide

/-- C5 (amended): for every non-empty token and every identity object
whose `id` is a non-zero number and whose `email` and `role` are
non-empty strings, `login` followed immediately by a fresh process
restore over the same storage yields the identical identity object. -/
theorem login_restore_roundtrip (tok : String) (o : JsUserObj) (s : AppState)
    (htok : tok ≠ "") (hid : intTruthy o.id = true)
    (hem : strTruthy o.email = true) (hrole : strTruthy o.role = true) :
    (freshMount (login tok o s).storage).user = some o := by
  simp only [freshMount, login, stringifyUser, restore]
  rw [if_pos ⟨htok, by simp⟩, if_pos ⟨hid, hem, hrole⟩]

/-- Closed instance of `login_restore_roundtrip` at a concrete token and
identity. -/
theorem login_restore_roundtrip_witness :
    (freshMount (login "t" ⟨some 1, some "n", some "e@x", some "WORKER"⟩
        ⟨clearedStorage, none⟩).storage).user
      = some ⟨some 1, some "n", some "e@x", some "WORKER"⟩ :=
  login_restore_roundtrip "t" ⟨some 1, some "n", some "e@x", some "WORKER"⟩
    ⟨clearedStorage, none⟩ (by decide) (by decide) (by decide) (by decide)

/-- C2 (counterexample): in the batch `[u0 ok, u1 fails, u2 ok]` the
failure of the middle file aborts the sequential loop, so the third
file's URL never reaches the uploaded list, contradicting the claim that
each of the other files still reaches the uploaded state. -/
theorem upload_batch_aborts_on_failure :
    "u2" ∉ (handleFileUpload [⟨"u0", true⟩, ⟨"u1", false⟩, ⟨"u2", true⟩]
        MediaKind.image ⟨[], [], false, none⟩).uploadedImages := by decide

/-- The sequential loop of `handleFileUpload` stops at the first failing
task: the accumulated list gains exactly the URLs of the tasks before it,
and the abort flag is set. -/
theorem runUploadLoop_stops_at_failure :
    ∀ (pre post : List UploadTask) (bad : UploadTask) (acc : List String),
      (∀ t ∈ pre, t.transferOk = true) → bad.transferOk = false →
      runUploadLoop (pre ++ bad :: post) acc = (acc ++ pre.map UploadTask.fileUrl, true)
  | [], _post, _bad, acc, _hpre, hbad => by
    simp [runUploadLoop, hbad]
  | t :: ts, post, bad, acc, hpre, hbad => by
    have ht := hpre t (List.mem_cons_self t ts)
    simp only [List.cons_append, runUploadLoop, ht, if_true, List.append_eq]
    rw [runUploadLoop_stops_at_failure ts post bad (acc ++ [t.fileUrl])
      (fun x hx => hpre x (List.mem_cons_of_mem t hx)) hbad]
    simp

/-- C2 (amended): when the file at position `k` of a batch fails at the
direct-transfer step and the files before it succeed, exactly the URLs of
the files before position `k` are appended, in order, to the uploaded
list — the files after position `k` are never processed; the uploading
flag is false once the handler returns (the batch terminated by aborting),
and the single generic error message is set. -/
theorem handleFileUpload_failure_aborts_rest (pre post : List UploadTask)
    (bad : UploadTask) (s : FormState)
    (hpre : ∀ t ∈ pre, t.transferOk = true) (hbad : bad.transferOk = false) :
    (handleFileUpload (pre ++ bad :: post) MediaKind.image s).uploadedImages
      = s.uploadedImages ++ pre.map UploadTask.fileUrl
    ∧ (handleFileUpload (pre ++ bad :: post) MediaKind.image s).isUploading = false
    ∧ (handleFileUpload (pre ++ bad :: post) MediaKind.image s).rootError
      = some "Failed to upload files. Please try again." := by
  have hne : pre ++ bad :: post ≠ [] := by simp
  have hloop := runUploadLoop_stops_at_failure pre post bad s.uploadedImages hpre hbad
  refine ⟨?_, ?_, ?_⟩ <;> simp [handleFileUpload, hne, hloop]

/-- Closed instance of `handleFileUpload_failure_aborts_rest` on a
three-file batch whose middle file fails. -/
theorem handleFileUpload_failure_aborts_rest_witness :
    (handleFileUpload ([⟨"a", true⟩] ++ ⟨"b", false⟩ :: [⟨"c", true⟩])
        MediaKind.image ⟨[], [], false, none⟩).uploadedImages
      = [] ++ [UploadTask.mk "a" true].map UploadTask.fileUrl
    ∧ (handleFileUpload ([⟨"a", true⟩] ++ ⟨"b", false⟩ :: [⟨"c", true⟩])
        MediaKind.image ⟨[], [], false, none⟩).isUploading = false := by
  have h := handleFileUpload_failure_aborts_rest [⟨"a", true⟩] [⟨"c", true⟩]
    ⟨"b", false⟩ ⟨[], [], false, none⟩ (by decide) rfl
  exact ⟨h.1, h.2.1⟩

/-! ### Lemmas about `splitOnChar` for C4 -/

/-- `splitOnChar` never returns the empty list: JS `split` always yields
at least one chunk. -/
theorem splitOnChar_ne_nil (c : Char) (l : List Char) : splitOnChar c l ≠ [] := by
  cases l with
  | nil => simp [splitOnChar]
  | cons x xs =>
    simp only [splitOnChar]
    by_cases hx : x = c
    · simp [hx]
    · simp only [if_neg hx]
      cases splitOnChar c xs <;> simp

/-- Splitting a list that does not contain the separator yields the whole
list as the single chunk. -/
theorem splitOnChar_of_not_mem (c : Char) (l : List Char) (h : c ∉ l) :
    splitOnChar c l = [l] := by
  induction l with
  | nil => rfl
  | cons x xs ih =>
    have hx : x ≠ c := fun he => h (he ▸ List.mem_cons_self x xs)
    have hxs : c ∉ xs := fun hm => h (List.mem_cons_of_mem x hm)
    simp only [splitOnChar, if_neg hx, ih hxs]

/-- Splitting a list that contains the separator yields at least two
chunks. -/
theorem two_le_length_splitOnChar (c : Char) (l : List Char) (h : c ∈ l) :
    2 ≤ (splitOnChar c l).length := by
  induction l with
  | nil => cases h
  | cons x xs ih =>
    by_cases hx : x = c
    · have h1 : 0 < (splitOnChar c xs).length :=
        List.length_pos.mpr (splitOnChar_ne_nil c xs)
      simp only [splitOnChar, if_pos hx, List.length_cons]
      omega
    · have hxs : c ∈ xs := by
        rcases List.mem_cons.mp h with he | hm
        · exact absurd he.symm hx
        · exact hm
      simp only [splitOnChar, if_neg hx]
      cases he : splitOnChar c xs with
      | nil => exact absurd he (splitOnChar_ne_nil c xs)
      | cons hd tl =>
        have h2 := ih hxs
        rw [he] at h2
        simpa using h2

/-- `takeWhile (· != c)` never looks past an occurrence of `c`: appending
after a list containing `c` changes nothing. -/
theorem takeWhile_ne_append_of_mem (c : Char) (l l2 : List Char) (h : c ∈ l) :
    (l ++ l2).takeWhile (fun x => x != c) = l.takeWhile (fun x => x != c) := by
  induction l with
  | nil => cases h
  | cons x xs ih =>
    by_cases hx : x = c
    · subst hx
      simp [List.takeWhile_cons]
    · have hxs : c ∈ xs := by
        rcases List.mem_cons.mp h with he | hm
        · exact absurd he.symm hx
        · exact hm
      have hbx : (x != c) = true := by simp [hx]
      simp only [List.cons_append, List.takeWhile_cons, hbx, if_true, ih hxs]

/-- Appending the separator itself does not extend
`takeWhile (· != c)`. -/
theorem takeWhile_ne_append_self (c : Char) (l : List Char) :
    (l ++ [c]).takeWhile (fun x => x != c) = l.takeWhile (fun x => x != c) := by
  induction l with
  | nil => simp [List.takeWhile_cons]
  | cons a l ih =>
    simp only [List.cons_append, List.takeWhile_cons]
    by_cases ha : a = c
    · simp [ha]
    · have hba : (a != c) = true := by simp [ha]
      simp [hba, ih]

/-- The last chunk of `splitOnChar c l` is exactly the part of `l` after
the final occurrence of `c` (the whole list when `c` does not occur). -/
theorem splitOnChar_getLast (c : Char) (l : List Char) :
    (splitOnChar c l).getLast? = some ((l.reverse.takeWhile (fun x => x != c)).reverse) := by
  induction l with
  | nil => rfl
  | cons x xs ih =>
    by_cases hx : x = c
    · subst hx
      simp only [splitOnChar, if_pos rfl]
      cases he : splitOnChar x xs with
      | nil => exact absurd he (splitOnChar_ne_nil x xs)
      | cons hd tl =>
        rw [he] at ih
        simp only [if_true]
        rw [List.getLast?_cons_cons, ih, List.reverse_cons,
          takeWhile_ne_append_self x xs.reverse]
    · simp only [splitOnChar, if_neg hx]
      by_cases hm : c ∈ xs
      · have h2 := two_le_length_splitOnChar c xs hm
        cases he : splitOnChar c xs with
        | nil => exact absurd he (splitOnChar_ne_nil c xs)
        | cons hd tl =>
          rw [he] at ih h2
          cases tl with
          | nil => simp at h2
          | cons t1 t2 =>
            rw [List.getLast?_cons_cons] at ih ⊢
            rw [ih, List.reverse_cons,
              takeWhile_ne_append_of_mem c xs.reverse [x] (List.mem_reverse.mpr hm)]
      · rw [splitOnChar_of_not_mem c xs hm]
        have hall : ∀ y ∈ xs.reverse ++ [x], (y != c) = true := by
          intro y hy
          rcases List.mem_append.mp hy with h1 | h1
          · have hyx : y ∈ xs := List.mem_reverse.mp h1
            simp only [bne_iff_ne, ne_eq]
            intro he
            exact hm (he ▸ hyx)
          · simp only [List.mem_singleton] at h1
            subst h1
            simp [hx]
        rw [List.reverse_cons, List.takeWhile_eq_self_iff.mpr hall]
        simp

/-- C4 (counterexample): the file name `README` contains no dot, yet the
extension sent with the upload-grant request is `readme` (the whole name
lower-cased), not the empty string the claim requires. -/
theorem extension_no_dot_not_empty :
    (uploadUrlRequestBody "README".toList "image/png".toList).fileExt = "readme".toList
    ∧ "readme".toList ≠ ([] : List Char) := by decide

/-- C4 (amended): the extension sent with the upload-grant request is the
lower-cased substring after the final `.` of the file name when the name
contains a `.`, and the lower-cased whole name when it contains none (so
it is empty only for the empty name). -/
theorem uploadUrl_fileExt_rule (fileName mimeType : List Char) :
    (uploadUrlRequestBody fileName mimeType).fileExt =
      if '.' ∈ fileName then (specAfterFinalDot fileName).map Char.toLower
      else fileName.map Char.toLower := by
  show getFileExtension fileName = _
  unfold getFileExtension specAfterFinalDot
  rw [splitOnChar_getLast]
  simp only [Option.getD_some]
  by_cases h : '.' ∈ fileName
  · rw [if_pos h]
  · rw [if_neg h]
    have hall : ∀ y ∈ fileName.reverse, (y != '.') = true := by
      intro y hy
      have hyf : y ∈ fileName := List.mem_reverse.mp hy
      simp only [bne_iff_ne, ne_eq]
      intro he
      exact h (he ▸ hyf)
    rw [List.takeWhile_eq_self_iff.mpr hall, List.reverse_reverse]

end SafeSnap
